import Mathlib

/-!
# Verification of the Bitten build-scheduling subsystem

A shallow embedding of `bitten/queue.py` (the `collect_changes` generator and
the `BuildQueue` class) and of the step-ingestion arithmetic of
`sandbox/http/bitten/master.py`, together with theorems settling the
specification's claims about them.

Conventions of the embedding:
* revisions are `Nat`; their ordering is supplied by the repository adapter's
  `rev_older_than` predicate, as in the source;
* timestamps are `Int` seconds;
* the persistent store (the `bitten.model` module, whose tables are described
  in the specification's data model) is a record of lists; `select`/`fetch`
  operations are list filters and lookups;
* Python `None` becomes `Option.none`; a Python operation that can raise an
  exception returns `Option`/`Except`, with `none`/`error` marking the raise.
-/

namespace Bitten

/-- Build / build-step status values of the data model. -/
inductive Status where
  | pending
  | inProgress
  | success
  | failure
deriving DecidableEq, Repr

/-- Modelled from the spec: a `BuildConfig` row — named build specification
with repository subtree `path`, inclusive revision bounds `minRev`/`maxRev`
(either may be null) and an `active` flag. -/
structure BuildConfigRec where
  name : String
  path : String
  minRev : Option Nat
  maxRev : Option Nat
  active : Bool
deriving DecidableEq, Repr

/-- Modelled from the spec: a `TargetPlatform` row — surrogate integer `id`,
owning config name, display name, and an ordered list of
`(propname, regex_pattern)` rules.  A rule entry that is falsy in Python (an
empty tuple) is represented by `none`; `ifilter(None, rules)` in the source
drops exactly those. -/
structure TargetPlatformRec where
  id : Nat
  config : String
  name : String
  rules : List (Option (String × String))
deriving DecidableEq, Repr

/-- Modelled from the spec: a `Build` row — one scheduled or executed build of
a `(config, rev, platform)` triple. -/
structure BuildRec where
  id : Nat
  config : String
  rev : Nat
  revTime : Int
  platform : Nat
  slave : Option String
  slaveInfo : List (String × String)
  status : Status
  started : Int
  stopped : Int
  lastActivity : Int
deriving DecidableEq, Repr

/-- Modelled from the spec: a `BuildStep` row — a step within one build
execution. -/
structure BuildStepRec where
  build : Nat
  name : String
  description : Option String
  status : Status
  started : Int
  stopped : Int
  errors : List String
deriving DecidableEq, Repr

/-- The repository adapter for one configuration path, as returned by
`get_repos`: the resolved repository path, whether `get_node` succeeds on it,
the `(path, rev)` pairs of the node's newest-first history walk, path
normalization, the revision order, emptiness of the tree at a revision, and
changeset timestamps. -/
structure Repos where
  reposPath : String
  nodeExists : Bool
  history : List (String × Nat)
  normalizePath : String → String
  revOlderThan : Nat → Nat → Bool
  nonEmptyAt : String → Nat → Bool
  changesetTime : Nat → Int

/-- The environment: the store's tables, the repository adapter keyed by
configuration path, the id the store will assign to the next inserted build,
and the set of `(config, rev, platform)` keys whose insert the store rejects.

The `insertFails` field is modelled from the spec: the store enforces a
uniqueness constraint on `(config, rev, platform)`, and `populate()` may run
concurrently with another populator, so an insert can be rejected for a key
this environment does not yet show; `insertFails` lists the keys so
rejected. -/
structure Env where
  configs : List BuildConfigRec
  platforms : List TargetPlatformRec
  builds : List BuildRec
  steps : List BuildStepRec
  reposOf : String → Repos
  nextId : Nat
  insertFails : List (String × Nat × Nat)

/-- Modelled from the spec: `BuildConfig.select(env)` — the active build
configurations. -/
def BuildConfig.select (env : Env) : List BuildConfigRec :=
  env.configs.filter (fun c => c.active)

/-- Modelled from the spec: `BuildConfig.fetch(env, name)` — the configuration
row with the given name, if any. -/
def BuildConfig.fetch (env : Env) (name : String) : Option BuildConfigRec :=
  env.configs.find? (fun c => c.name == name)

/-- Modelled from the spec: `TargetPlatform.select(env, config)` — the target
platforms of the named configuration. -/
def TargetPlatform.select (env : Env) (config : String) : List TargetPlatformRec :=
  env.platforms.filter (fun p => p.config == config)

/-- Modelled from the spec: `TargetPlatform.fetch(env, id)` — the platform row
with the given id, if any. -/
def TargetPlatform.fetch (env : Env) (id : Nat) : Option TargetPlatformRec :=
  env.platforms.find? (fun p => p.id == id)

/-- Modelled from the spec: `Build.select(env, config, rev, platform)` — the
builds of one `(config, rev, platform)` triple. -/
def Build.selectTriple (env : Env) (config : String) (rev : Nat) (platform : Nat) :
    List BuildRec :=
  env.builds.filter (fun b => b.config == config && b.rev == rev && b.platform == platform)

/-- Modelled from the spec: `Build.select(env, status=s)` — the builds with the
given status. -/
def Build.selectStatus (env : Env) (s : Status) : List BuildRec :=
  env.builds.filter (fun b => b.status == s)

/-- Modelled from the spec: `Build.select(env, config, min_rev_time, platform)`
— the builds of a `(config, platform)` pair whose `rev_time` is at least the
given bound (the repository's own query for this bound, in `web_ui.py`, is
`rev_time >= %s`). -/
def Build.selectMinRevTime (env : Env) (config : String) (minRevTime : Int)
    (platform : Nat) : List BuildRec :=
  env.builds.filter
    (fun b => b.config == config && b.platform == platform && minRevTime ≤ b.revTime)

/-! ## A model of the `re` fragment used by the platform rules

`match_slave` evaluates each rule with `re.match(pattern, propvalue, re.I)` and
treats `re.error` as a non-match.  We model the fragment of Python regex syntax
consisting of literal characters, `.`, the postfix repeaters `*`, `+`, `?`, and
a final `$` anchor; any other metacharacter is conservatively mapped to a
compile failure (in Python, a lone `(`, `[`, `\` or a leading repeater is
likewise an `re.error`).  `re.match` semantics: the pattern must match at the
start of the value but not necessarily to its end; `re.I` is modelled by
lowercasing pattern literals and subject characters. -/

/-- A regex atom: a literal character or `.` (any character but newline). -/
inductive ReAtom where
  | lit (c : Char)
  | dot
deriving DecidableEq, Repr

/-- A regex item: an atom taken once, zero-or-more times, or optionally. -/
inductive ReItem where
  | once (a : ReAtom)
  | star (a : ReAtom)
  | opt (a : ReAtom)
deriving DecidableEq, Repr

/-- Does the atom match one character?  `re.I` is modelled by lowercasing:
pattern literals are lowercased at parse time and the subject character is
lowercased here. -/
def atomMatch : ReAtom → Char → Bool
  | .lit d, c => c.toLower == d
  | .dot, c => c != '\n'

/-- `seqMatch items anchored s`: does the item sequence match a prefix of `s`
(all of `s` when `anchored` is true)? -/
def seqMatch : List ReItem → Bool → List Char → Bool
  | [], anchored, s => !anchored || s.isEmpty
  | .once _ :: _, _, [] => false
  | .once a :: items, anchored, c :: s => atomMatch a c && seqMatch items anchored s
  | .star _ :: items, anchored, [] => seqMatch items anchored []
  | .star a :: items, anchored, c :: s =>
      seqMatch items anchored (c :: s) ||
        (atomMatch a c && seqMatch (.star a :: items) anchored s)
  | .opt _ :: items, anchored, [] => seqMatch items anchored []
  | .opt a :: items, anchored, c :: s =>
      seqMatch items anchored (c :: s) || (atomMatch a c && seqMatch items anchored s)
termination_by items _ s => (s.length, items.length)

/-- Metacharacters outside the modelled fragment (or misplaced repeaters):
these make compilation fail. -/
def reBadChar (c : Char) : Bool :=
  c == '*' || c == '+' || c == '?' || c == '(' || c == ')' || c == '[' ||
    c == ']' || c == '{' || c == '}' || c == '|' || c == '^' || c == '\\' || c == '$'

/-- Parse a pattern into an item sequence and an end-anchor flag; `none` models
`re.error`.  Pattern literals are lowercased (`re.I`). -/
def reParse : List Char → Option (List ReItem × Bool)
  | [] => some ([], false)
  | ['$'] => some ([], true)
  | c :: '*' :: rest2 =>
    if reBadChar c then none
    else
      (reParse rest2).map
        (fun p => (ReItem.star (if c == '.' then .dot else .lit c.toLower) :: p.1, p.2))
  | c :: '+' :: rest2 =>
    if reBadChar c then none
    else
      (reParse rest2).map
        (fun p =>
          (ReItem.once (if c == '.' then .dot else .lit c.toLower) ::
            ReItem.star (if c == '.' then .dot else .lit c.toLower) :: p.1, p.2))
  | c :: '?' :: rest2 =>
    if reBadChar c then none
    else
      (reParse rest2).map
        (fun p => (ReItem.opt (if c == '.' then .dot else .lit c.toLower) :: p.1, p.2))
  | c :: rest =>
    if reBadChar c then none
    else
      (reParse rest).map
        (fun p => (ReItem.once (if c == '.' then .dot else .lit c.toLower) :: p.1, p.2))

/-- `re.match(pattern, value, re.I)` for the modelled fragment: `none` is an
`re.error`, otherwise whether the pattern matches at the start of `value`. -/
def reMatchI (pattern value : String) : Option Bool :=
  (reParse pattern.data).map (fun p => seqMatch p.1 p.2 value.data)

/-- `properties.get(propname)` on the slave's property map. -/
def propGet (properties : List (String × String)) (k : String) : Option String :=
  (properties.find? (fun kv => kv.1 == k)).map (fun kv => kv.2)

/-- One rule of `match_slave`'s inner loop: the rule holds unless the property
is missing or empty, the pattern fails to compile (`re.error`), or the
case-insensitive anchored match fails. -/
def ruleMatches (properties : List (String × String)) (rule : String × String) : Bool :=
  match propGet properties rule.1 with
  | none => false
  | some v =>
    if v == "" then false
    else
      match reMatchI rule.2 v with
      | none => false
      | some b => b

/-- The per-platform part of `match_slave`: every non-empty rule must hold. -/
def platformMatches (properties : List (String × String)) (p : TargetPlatformRec) : Bool :=
  (p.rules.filterMap id).all (ruleMatches properties)

/-- `BuildQueue.match_slave(name, properties)`: the platforms, across the
selected build configurations, all of whose non-empty rules match the slave's
properties.  `name` is used only for logging in the source. -/
def match_slave (env : Env) (name : String) (properties : List (String × String)) :
    List TargetPlatformRec :=
  ((BuildConfig.select env).map
    (fun c => (TargetPlatform.select env c.name).filter (platformMatches properties))).flatten

/-! ## `collect_changes`

In `bitten/queue.py` the platform loop at the end of `collect_changes` sits at
the same indentation as the history loop, so it runs once, after the walk, on
whatever value the walk last bound to `rev` (the trunk copy of the file,
`trunk/bitten/queue.py`, nests the platform loop inside the walk).  The
embedding reproduces that: `historyFinalRev` is the value of `rev` after the
walk (`none` when the walk never ran, in which case Python raises `NameError`
on the first use of `rev`). -/

/-- The value bound to `rev` when the history loop of `collect_changes` in
`bitten/queue.py` exits: the loop breaks on a path mismatch or a revision
older than `min_rev` (with `rev` already bound to the breaking element), and
otherwise runs to the end of the history. -/
def historyFinalRev (repos : Repos) (minRev : Option Nat) :
    List (String × Nat) → Option Nat
  | [] => none
  | (path, rev) :: rest =>
    if path ≠ repos.normalizePath repos.reposPath then some rev
    else if minRev.any (fun m => repos.revOlderThan rev m) then some rev
    else some ((historyFinalRev repos minRev rest).getD rev)

/-- `collect_changes(config)` as written in `bitten/queue.py`: after the
history walk, one `(platform, rev, build)` tuple per target platform for the
final binding of `rev`.  `none` models the `NameError` raised when the history
is empty and `rev` is unbound; an inaccessible node yields nothing (the
exception is caught and logged). -/
def collect_changes (env : Env) (config : BuildConfigRec) :
    Option (List (TargetPlatformRec × Nat × Option BuildRec)) :=
  let repos := env.reposOf config.path
  if !repos.nodeExists then some []
  else
    let plats := TargetPlatform.select env config.name
    match historyFinalRev repos config.minRev repos.history with
    | some rev =>
        some (plats.map (fun p => (p, rev, (Build.selectTriple env config.name rev p.id).head?)))
    | none => if plats.isEmpty then some [] else none

/-- Following the spec's words, for comparison with `collect_changes`: the
revisions of the newest-first walk that pass all the filters — stop on a path
mismatch or a revision strictly older than `min_rev`, skip revisions strictly
newer than `max_rev` and revisions with an empty tree. -/
def qualifyingRevs (repos : Repos) (minRev maxRev : Option Nat) :
    List (String × Nat) → List Nat
  | [] => []
  | (path, rev) :: rest =>
    if path ≠ repos.normalizePath repos.reposPath then []
    else if minRev.any (fun m => repos.revOlderThan rev m) then []
    else if maxRev.any (fun m => repos.revOlderThan m rev) then
      qualifyingRevs repos minRev maxRev rest
    else if !repos.nonEmptyAt path rev then qualifyingRevs repos minRev maxRev rest
    else rev :: qualifyingRevs repos minRev maxRev rest

/-- Following the spec's words, for comparison with `collect_changes`: one
`(platform, rev, build_or_null)` tuple per target platform for **each**
qualifying revision of the walk. -/
def collect_changes_specModel (env : Env) (config : BuildConfigRec) :
    List (TargetPlatformRec × Nat × Option BuildRec) :=
  let repos := env.reposOf config.path
  if !repos.nodeExists then []
  else
    ((qualifyingRevs repos config.minRev config.maxRev repos.history).map
      (fun rev =>
        (TargetPlatform.select env config.name).map
          (fun p => (p, rev, (Build.selectTriple env config.name rev p.id).head?)))).flatten

/-! ## `BuildQueue` -/

/-- The constructor arguments of `BuildQueue`: `build_all`, `stabilize_wait`
and the orphan `timeout` (0 disables orphan reset). -/
structure QueueCfg where
  build_all : Bool
  stabilize_wait : Int
  timeout : Int
deriving DecidableEq, Repr

/-- `BuildQueue.should_delete_build(build, repos)`.  `none` models the
`AttributeError` raised on `config.name` in the missing-platform branch when
the configuration row is also missing; otherwise `some` of the returned
boolean. -/
def should_delete_build (env : Env) (q : QueueCfg) (build : BuildRec) (repos : Repos) :
    Option Bool :=
  let config := BuildConfig.fetch env build.config
  let platform := TargetPlatform.fetch env build.platform
  match platform with
  | none =>
    -- the log call in this branch reads `config.name`
    match config with
    | none => none
    | some _ => some true
  | some _ =>
    match config with
    | none => some true
    | some cfg =>
      if !cfg.active then some true
      else if (cfg.minRev.any (fun m => repos.revOlderThan build.rev m)) ||
              (cfg.maxRev.any (fun m => repos.revOlderThan m build.rev)) then some true
      else if !q.build_all &&
              1 < (Build.selectMinRevTime env build.config build.revTime build.platform).length
        then some true
      else some false

/-- The field reset applied to an orphaned build by
`BuildQueue.reset_orphaned_builds`. -/
def resetBuild (b : BuildRec) : BuildRec :=
  { b with status := .pending, slave := none, slaveInfo := [],
           started := 0, stopped := 0, lastActivity := 0 }

/-- Is the build an orphan: in progress with no activity for at least the
timeout? -/
def isOrphaned (q : QueueCfg) (now : Int) (b : BuildRec) : Bool :=
  b.status == .inProgress && !(now - b.lastActivity < q.timeout)

/-- `BuildQueue.reset_orphaned_builds()`: a no-op when the timeout is 0;
otherwise every orphaned in-progress build is reset to pending and its build
steps are deleted. -/
def reset_orphaned_builds (q : QueueCfg) (now : Int) (env : Env) : Env :=
  if q.timeout == 0 then env
  else
    { env with
      builds := env.builds.map (fun b => if isOrphaned q now b then resetBuild b else b),
      steps := env.steps.filter
        (fun s => !env.builds.any (fun b => isOrphaned q now b && b.id == s.build)) }

/-- A build row as assembled by `populate()` before insertion
(`Build(env, config=..., platform=..., rev=..., rev_time=...)`). -/
structure NewBuild where
  config : String
  platform : Nat
  rev : Nat
  revTime : Int
deriving DecidableEq, Repr

/-- The per-configuration loop of `BuildQueue.populate()`: iterate the
collector's tuples tracking the platforms already seen; when `build_all` is
false, break as soon as a platform is re-encountered; enqueue a new build for
a tuple without one unless the revision is younger than `stabilize_wait`. -/
def populateScan (q : QueueCfg) (now : Int) (env : Env) (config : BuildConfigRec) :
    List (TargetPlatformRec × Nat × Option BuildRec) → List Nat → List NewBuild
  | [], _ => []
  | (p, rev, b) :: rest, seen =>
    if !q.build_all && seen.contains p.id then []
    else
      let seen1 := seen ++ [p.id]
      match b with
      | some _ => populateScan q now env config rest seen1
      | none =>
        let repos := env.reposOf config.path
        let revTime := repos.changesetTime rev
        let age := now - revTime
        if q.stabilize_wait != 0 && age < q.stabilize_wait then
          populateScan q now env config rest seen1
        else
          { config := config.name, platform := p.id, rev := rev, revTime := revTime } ::
            populateScan q now env config rest seen1

/-- The gathering phase of `populate()` over the selected configurations;
`none` models the `NameError` a configuration's `collect_changes` can raise. -/
def populateGather (q : QueueCfg) (now : Int) (env : Env) :
    List BuildConfigRec → Option (List NewBuild)
  | [] => some []
  | config :: rest => do
    let tuples ← collect_changes env config
    let others ← populateGather q now env rest
    return populateScan q now env config tuples [] ++ others

/-- Does inserting this build violate the `(config, rev, platform)` uniqueness
constraint — against a row already in the table, or against a row a concurrent
populator wrote (the environment's `insertFails` keys)? -/
def insertConflict (env : Env) (nb : NewBuild) : Bool :=
  env.builds.any
      (fun b => b.config == nb.config && b.rev == nb.rev && b.platform == nb.platform) ||
    env.insertFails.contains (nb.config, nb.rev, nb.platform)

/-- The row `Build.insert` writes for a new pending build. -/
def mkBuild (id : Nat) (nb : NewBuild) : BuildRec :=
  { id := id, config := nb.config, rev := nb.rev, revTime := nb.revTime,
    platform := nb.platform, slave := none, slaveInfo := [], status := .pending,
    started := 0, stopped := 0, lastActivity := 0 }

/-- The insertion phase of `populate()`: `build.insert()` for each gathered
build; an insert rejected by the uniqueness constraint is logged and then
**re-raised** (`raise` in the handler), modelled by `Except.error`. -/
def insertAll (env : Env) : List NewBuild → Except Unit Env
  | [] => .ok env
  | nb :: rest =>
    if insertConflict env nb then .error ()
    else
      insertAll
        { env with builds := env.builds ++ [mkBuild env.nextId nb],
                   nextId := env.nextId + 1 } rest

/-- `BuildQueue.populate()`: gather new builds across the selected
configurations, then insert them; `Except.error` models an exception
propagating to the caller. -/
def populate (q : QueueCfg) (now : Int) (env : Env) : Except Unit Env :=
  match populateGather q now env (BuildConfig.select env) with
  | none => .error ()
  | some nbs => insertAll env nbs

/-- Python `dict.update`: entries of `upd` replace same-key entries of
`base`. -/
def dictUpdate (base upd : List (String × String)) : List (String × String) :=
  base.filter (fun kv => upd.all (fun uv => uv.1 != kv.1)) ++ upd

/-- The allocation applied to the selected build by `get_build_for_slave`:
`slave = name`, `slave_info.update(properties)`, `status = IN_PROGRESS`. -/
def allocate (name : String) (properties : List (String × String)) (b : BuildRec) :
    BuildRec :=
  { b with slave := some name, slaveInfo := dictUpdate b.slaveInfo properties,
           status := .inProgress }

/-- The scanning loop of `get_build_for_slave` over the pending builds:
fetch the build's configuration (`.path` on a missing row raises, modelled by
`none`), mark the build for deletion if `should_delete_build` says so, else
select it if its platform is among the matched ids; returns the builds marked
for deletion and the selected build, if any. -/
def scanPending (env : Env) (q : QueueCfg) (pids : List Nat) :
    List BuildRec → Option (List BuildRec × Option BuildRec)
  | [] => some ([], none)
  | b :: rest =>
    match BuildConfig.fetch env b.config with
    | none => none
    | some cfg =>
      match should_delete_build env q b (env.reposOf cfg.path) with
      | none => none
      | some true => (scanPending env q pids rest).map (fun r => (b :: r.1, r.2))
      | some false =>
        if pids.contains b.platform then some ([], some b)
        else scanPending env q pids rest

/-- `BuildQueue.get_build_for_slave(name, properties)`: reset orphaned builds,
match the slave against the target platforms, scan the pending builds, delete
the obsolete ones, and allocate the selected build (persisting the update)
before returning it.  `none` models an exception escaping the call. -/
def get_build_for_slave (q : QueueCfg) (now : Int) (name : String)
    (properties : List (String × String)) (env : Env) :
    Option (Option BuildRec × Env) :=
  let env1 := reset_orphaned_builds q now env
  let pids := (match_slave env1 name properties).map (fun p => p.id)
  match scanPending env1 q pids (Build.selectStatus env1 .pending) with
  | none => none
  | some (del, found) =>
    let env2 := { env1 with
      builds := env1.builds.filter (fun b => !del.any (fun d => d.id == b.id)) }
    match found with
    | none => some (none, env2)
    | some b0 =>
      let b1 := allocate name properties b0
      some (some b1,
        { env2 with builds := env2.builds.map (fun x => if x.id == b0.id then b1 else x) })

/-! ## Step ingestion (`sandbox/http/bitten/master.py`)

`send_snapshot` computes the session's `timestamp_delta` once per build when
the master is configured to adjust timestamps, as
`datetime.now() − timedelta(seconds=check_interval) − fromtimestamp(rev_time)`
converted to whole seconds; every subsequent `started`/`step`/`completed`
message of the build is handled with that same delta. -/

/-- The session-scoped `timestamp_delta` computed in `send_snapshot`: zero
unless `adjust_timestamps` is set, else `now − check_interval − rev_time`
(in seconds). -/
def timestamp_delta (adjust : Bool) (now check_interval revTime : Int) : Int :=
  if adjust then now - check_interval - revTime else 0

/-- A `<step>` message as handled by `_build_step_completed`, with its start
time already parsed from ISO-8601 to a Unix timestamp. -/
structure StepMsg where
  id : String
  description : Option String
  time : Int
  duration : Int
  result : String
  errors : List String
deriving DecidableEq, Repr

/-- `OrchestrationProfileHandler._build_step_completed`: the `BuildStep` row
persisted for one step message — `started` from the message's time, `stopped =
started + duration`, both shifted back by the session's `timestamp_delta` when
it is non-zero, status from the message's `result`. -/
def build_step_completed (buildId : Nat) (delta : Int) (msg : StepMsg) : BuildStepRec :=
  let started := msg.time
  let stopped := started + msg.duration
  let started1 := if delta != 0 then started - delta else started
  let stopped1 := if delta != 0 then stopped - delta else stopped
  { build := buildId, name := msg.id, description := msg.description,
    status := if msg.result == "failure" then .failure else .success,
    started := started1, stopped := stopped1, errors := msg.errors }

/-- All step messages of one build session are ingested with the same
session-scoped delta (the `handle_reply` closure captures it once). -/
def ingestSteps (buildId : Nat) (delta : Int) (msgs : List StepMsg) : List BuildStepRec :=
  msgs.map (build_step_completed buildId delta)

/-! ## Concrete scenario used by the theorems and witnesses -/

/-- A repository whose `/trunk` history walk yields revisions 103, 102, 101
(newest first), with non-empty trees and `rev_time = rev`. -/
def sampleRepos : Repos :=
  { reposPath := "/trunk", nodeExists := true,
    history := [("/trunk", 103), ("/trunk", 102), ("/trunk", 101)],
    normalizePath := fun s => s, revOlderThan := fun a b => a < b,
    nonEmptyAt := fun _ _ => true, changesetTime := fun r => (r : Int) }

/-- An active configuration `C` on `/trunk` with no revision bounds. -/
def sampleConfig : BuildConfigRec :=
  { name := "C", path := "/trunk", minRev := none, maxRev := none, active := true }

/-- A platform of configuration `C` with an empty rules list. -/
def samplePlatform : TargetPlatformRec :=
  { id := 1, config := "C", name := "P1", rules := [] }

/-- The environment with the sample configuration and platform and no builds. -/
def sampleEnv : Env :=
  { configs := [sampleConfig], platforms := [samplePlatform], builds := [], steps := [],
    reposOf := fun _ => sampleRepos, nextId := 1, insertFails := [] }

/-- A queue with `build_all = false`, no stabilize wait, no timeout. -/
def sampleQueue : QueueCfg := { build_all := false, stabilize_wait := 0, timeout := 0 }

/-- A pending build of `(C, 103, platform 1)`. -/
def samplePending : BuildRec :=
  { id := 1, config := "C", rev := 103, revTime := 103, platform := 1, slave := none,
    slaveInfo := [], status := .pending, started := 0, stopped := 0, lastActivity := 0 }

/-- The sample environment holding the one pending build. -/
def sampleEnvPending : Env := { sampleEnv with builds := [samplePending], nextId := 2 }

/-! ## Theorems -/

/-- **C2** — `collect_changes` in `bitten/queue.py` does *not* yield one tuple
per target platform for every qualifying revision of the walk: on a history of
three qualifying revisions 103, 102, 101 it yields a single tuple, for 101
(the last binding of `rev` when the dedented platform loop runs), whereas the
walk described by the spec yields tuples for all three revisions. -/
theorem C2_collect_changes_only_final_rev :
    collect_changes sampleEnv sampleConfig = some [(samplePlatform, 101, none)] ∧
    collect_changes_specModel sampleEnv sampleConfig =
      [(samplePlatform, 103, none), (samplePlatform, 102, none),
        (samplePlatform, 101, none)] :=
  ⟨rfl, rfl⟩

/-- **C3** — with `build_all = false`, three unbuilt revisions 103, 102, 101
and one platform, a single `populate()` call enqueues exactly one pending
build, but at revision **101**, not 103: the dedented platform loop of
`collect_changes` hands `populate` only the walk's final revision. -/
theorem C3_populate_enqueues_oldest_not_newest :
    ∃ env2, populate sampleQueue 200 sampleEnv = .ok env2 ∧
      env2.builds.map (fun b => (b.config, b.rev, b.platform, b.status)) =
        [("C", 101, 1, Status.pending)] :=
  ⟨{ sampleEnv with
      builds := [mkBuild 1 { config := "C", platform := 1, rev := 101, revTime := 101 }],
      nextId := 2 }, rfl, rfl⟩

/-- **C8** — every `BuildStep` persisted by `_build_step_completed` satisfies
`stopped = started + duration`; when timestamp adjustment is enabled the
session-scoped delta `now − check_interval − rev_time` is subtracted from both
the start and the stop time, and every ingested step of the build arises from
that same single delta. -/
theorem C8_step_ingestion_timestamps (bid : Nat) (adjust : Bool)
    (now check_interval revTime : Int) (msgs : List StepMsg) :
    (∀ step ∈ ingestSteps bid (timestamp_delta adjust now check_interval revTime) msgs,
      ∃ msg ∈ msgs,
        step = build_step_completed bid (timestamp_delta adjust now check_interval revTime) msg ∧
        step.stopped = step.started + msg.duration ∧
        (adjust = true →
          step.started = msg.time - (now - check_interval - revTime) ∧
          step.stopped = msg.time + msg.duration - (now - check_interval - revTime))) ∧
    (∀ msg ∈ msgs,
      build_step_completed bid (timestamp_delta adjust now check_interval revTime) msg ∈
        ingestSteps bid (timestamp_delta adjust now check_interval revTime) msgs) := by
  constructor
  · intro step hstep
    rw [ingestSteps, List.mem_map] at hstep
    obtain ⟨msg, hmsg, heq⟩ := hstep
    refine ⟨msg, hmsg, heq.symm, ?_, ?_⟩
    · subst heq
      simp only [build_step_completed]
      by_cases h : timestamp_delta adjust now check_interval revTime = 0 <;>
        simp [h]
      omega
    · intro ha
      subst heq
      simp only [build_step_completed, timestamp_delta, ha, if_true]
      by_cases h : now - check_interval - revTime = 0 <;> simp [h]
  · intro msg hmsg
    rw [ingestSteps, List.mem_map]
    exact ⟨msg, hmsg, rfl⟩

/-- **C8 witness** — the step arithmetic at a concrete ingestion: one step
message at time 1000 with duration 5, adjusted session delta
`2000 − 120 − 600 = 1280`. -/
theorem C8_step_ingestion_timestamps_witness :
    ∀ step ∈ ingestSteps 7 (timestamp_delta true 2000 120 600)
        [{ id := "s1", description := none, time := 1000, duration := 5,
           result := "success", errors := [] }],
      ∃ msg ∈ [({ id := "s1", description := none, time := 1000, duration := 5,
                  result := "success", errors := [] } : StepMsg)],
        step = build_step_completed 7 (timestamp_delta true 2000 120 600) msg ∧
        step.stopped = step.started + msg.duration ∧
        (true = true →
          step.started = msg.time - (2000 - 120 - 600) ∧
          step.stopped = msg.time + msg.duration - (2000 - 120 - 600)) :=
  (C8_step_ingestion_timestamps 7 true 2000 120 600 _).1

/-- **C9** — `should_delete_build` on a build whose platform row is missing:
if the configuration row exists the call returns `true`; if the configuration
row is also missing, the log statement of the missing-platform branch
dereferences the absent configuration (`config.name`) and the call raises
instead of returning. -/
theorem C9_missing_platform_needs_config (env : Env) (q : QueueCfg) (b : BuildRec)
    (repos : Repos) :
    (TargetPlatform.fetch env b.platform = none →
      (BuildConfig.fetch env b.config).isSome = true →
      should_delete_build env q b repos = some true) ∧
    (TargetPlatform.fetch env b.platform = none →
      BuildConfig.fetch env b.config = none →
      should_delete_build env q b repos = none) := by
  constructor
  · intro hp hc
    obtain ⟨c, hc⟩ := Option.isSome_iff_exists.mp hc
    simp [should_delete_build, hp, hc]
  · intro hp hc
    simp [should_delete_build, hp, hc]

/-- **C9 witness** — concretely: a build referencing platform 9 in the sample
environment (platform missing, config `C` present) is dropped with `true`; in
an environment with no configurations either, the call raises (`none`). -/
theorem C9_missing_platform_needs_config_witness :
    should_delete_build sampleEnv sampleQueue { samplePending with platform := 9 }
        sampleRepos = some true ∧
    should_delete_build { sampleEnv with configs := [] } sampleQueue
        { samplePending with platform := 9 } sampleRepos = none :=
  ⟨(C9_missing_platform_needs_config sampleEnv sampleQueue
      { samplePending with platform := 9 } sampleRepos).1 (by decide) (by decide),
   (C9_missing_platform_needs_config { sampleEnv with configs := [] } sampleQueue
      { samplePending with platform := 9 } sampleRepos).2 (by decide) (by decide)⟩

/-- **C4** — membership in `match_slave(name, properties)`: exactly the
platforms of the selected (active) configurations all of whose non-empty rules
match; an empty rules list matches every slave; a missing property, an empty
property value, or a pattern that fails to compile makes the platform a
non-match (the function is total — exceptions are caught in the source). -/
theorem C4_match_slave_semantics (env : Env) (name : String)
    (properties : List (String × String)) (p : TargetPlatformRec) :
    (p ∈ match_slave env name properties ↔
      (∃ c ∈ env.configs, c.active = true ∧ p.config = c.name) ∧
        p ∈ env.platforms ∧
        ∀ r ∈ p.rules.filterMap id, ruleMatches properties r = true) ∧
    (p.rules.filterMap id = [] → platformMatches properties p = true) ∧
    (∀ r ∈ p.rules.filterMap id,
      (propGet properties r.1 = none ∨ propGet properties r.1 = some "" ∨
        reParse r.2.data = none) →
      platformMatches properties p = false) := by
  refine ⟨?_, ?_, ?_⟩
  · constructor
    · intro hmem
      rw [match_slave] at hmem
      simp only [List.mem_flatten, List.mem_map] at hmem
      obtain ⟨l, ⟨c, hc, rfl⟩, hp⟩ := hmem
      rw [List.mem_filter] at hp
      obtain ⟨hp1, hmatch⟩ := hp
      rw [TargetPlatform.select, List.mem_filter] at hp1
      rw [BuildConfig.select, List.mem_filter] at hc
      rw [platformMatches, List.all_eq_true] at hmatch
      exact ⟨⟨c, hc.1, hc.2, by simpa using hp1.2⟩, hp1.1, hmatch⟩
    · rintro ⟨⟨c, hc, hca, hpc⟩, hp, hmatch⟩
      rw [match_slave]
      simp only [List.mem_flatten, List.mem_map]
      refine ⟨_, ⟨c, ?_, rfl⟩, ?_⟩
      · rw [BuildConfig.select, List.mem_filter]
        exact ⟨hc, hca⟩
      · rw [List.mem_filter]
        refine ⟨?_, ?_⟩
        · rw [TargetPlatform.select, List.mem_filter]
          exact ⟨hp, by simp [hpc]⟩
        · rw [platformMatches, List.all_eq_true]
          exact hmatch
  · intro h
    rw [platformMatches, h]
    rfl
  · intro r hr hbad
    have hrule : ruleMatches properties r = false := by
      rcases hbad with h | h | h
      · simp [ruleMatches, h]
      · simp [ruleMatches, h]
      · rcases hpg : propGet properties r.1 with _ | v
        · simp [ruleMatches, hpg]
        · simp [ruleMatches, hpg, reMatchI, h]
    rw [platformMatches]
    rw [Bool.eq_false_iff]
    intro hall
    rw [List.all_eq_true] at hall
    have := hall r hr
    rw [hrule] at this
    exact Bool.false_ne_true this

/-- **C4 witness** — the sample platform (empty rules, active config `C`) is
matched for any slave property map; concretely it is in
`match_slave sampleEnv "slim" []`. -/
theorem C4_match_slave_semantics_witness :
    samplePlatform ∈ match_slave sampleEnv "slim" [] :=
  (C4_match_slave_semantics sampleEnv "slim" [] samplePlatform).1.mpr
    ⟨⟨sampleConfig, by decide, by decide, by decide⟩, by decide, by decide⟩

/-- **C5** — `reset_orphaned_builds`: a no-op when the timeout is 0; otherwise
afterwards no build is in progress with `now − last_activity ≥ timeout`, and
every orphaned build has been reset to a pending row with `slave = null`,
empty `slave_info`, zeroed times, and all of its build steps deleted. -/
theorem C5_reset_orphaned_builds (q : QueueCfg) (now : Int) (env : Env) :
    (q.timeout = 0 → reset_orphaned_builds q now env = env) ∧
    (q.timeout ≠ 0 →
      (∀ b ∈ (reset_orphaned_builds q now env).builds,
          ¬(b.status = .inProgress ∧ q.timeout ≤ now - b.lastActivity)) ∧
      (∀ b ∈ env.builds, isOrphaned q now b = true →
          ∃ b2 ∈ (reset_orphaned_builds q now env).builds,
            b2.id = b.id ∧ b2.slave = none ∧ b2.slaveInfo = [] ∧ b2.started = 0 ∧
            b2.stopped = 0 ∧ b2.lastActivity = 0 ∧ b2.status = .pending ∧
            ∀ s ∈ (reset_orphaned_builds q now env).steps, s.build ≠ b.id)) := by
  constructor
  · intro h
    simp [reset_orphaned_builds, h]
  · intro h
    have hne : (q.timeout == 0) = false := by simpa using h
    constructor
    · intro b hb
      rw [reset_orphaned_builds] at hb
      simp only [hne, Bool.false_eq_true, if_false, List.mem_map] at hb
      obtain ⟨b0, hb0, rfl⟩ := hb
      by_cases horph : isOrphaned q now b0 = true
      · simp [horph, resetBuild]
      · rw [Bool.not_eq_true] at horph
        simp only [horph, Bool.false_eq_true, if_false]
        rintro ⟨hs, hle⟩
        rw [isOrphaned, hs] at horph
        simp at horph
        omega
    · intro b hb horph
      refine ⟨resetBuild b, ?_, rfl, rfl, rfl, rfl, rfl, rfl, rfl, ?_⟩
      · rw [reset_orphaned_builds]
        simp only [hne, Bool.false_eq_true, if_false, List.mem_map]
        exact ⟨b, hb, by rw [horph]; rfl⟩
      · intro s hs
        rw [reset_orphaned_builds] at hs
        simp only [hne, Bool.false_eq_true, if_false, List.mem_filter] at hs
        have := hs.2
        rw [Bool.not_eq_true'] at this
        rw [List.any_eq_false] at this
        have hb2 := this b hb
        rw [horph] at hb2
        simp at hb2
        exact fun hcontra => hb2 hcontra.symm

/-- An in-progress build whose last activity is 4000 seconds before the
witness scenario's `now = 10000`. -/
def orphanBuild : BuildRec :=
  { samplePending with
    id := 7, status := .inProgress, slave := some "s", lastActivity := 6000 }

/-- A step row of the orphaned build. -/
def orphanStep : BuildStepRec :=
  { build := 7, name := "st", description := none, status := .success,
    started := 0, stopped := 0, errors := [] }

/-- The environment holding the orphaned build and its step. -/
def orphanEnv : Env := { sampleEnv with builds := [orphanBuild], steps := [orphanStep] }

/-- A queue configured with the default 3600-second orphan timeout. -/
def orphanQueue : QueueCfg := { build_all := false, stabilize_wait := 0, timeout := 3600 }

/-- **C5 witness** — a concrete orphaned build (in progress, last activity
4000 seconds ago, timeout 3600) with one step: after the reset it is pending
with cleared fields and its step row is gone. -/
theorem C5_reset_orphaned_builds_witness :
    ∃ b2 ∈ (reset_orphaned_builds orphanQueue 10000 orphanEnv).builds,
      b2.id = 7 ∧ b2.slave = none ∧ b2.slaveInfo = [] ∧ b2.started = 0 ∧
      b2.stopped = 0 ∧ b2.lastActivity = 0 ∧ b2.status = .pending ∧
      ∀ s ∈ (reset_orphaned_builds orphanQueue 10000 orphanEnv).steps, s.build ≠ orphanBuild.id :=
  ((C5_reset_orphaned_builds orphanQueue 10000 orphanEnv).2 (by decide)).2
    orphanBuild (by decide) (by decide)

/-- An environment in which a concurrent populator has already written the
`(C, 101, 1)` build row, so that this populator's insert hits the uniqueness
constraint. -/
def raceEnv : Env := { sampleEnv with insertFails := [("C", 101, 1)] }

/-- **C7 counterexample** — at `raceEnv` the gathering phase of `populate()`
succeeds and produces one new build whose insert violates the uniqueness
constraint, and `populate()` raises (`Except.error`) instead of completing
normally: the insert failure is logged and then re-raised, not swallowed. -/
theorem C7_populate_raises_counterexample :
    populate sampleQueue 200 raceEnv = .error () ∧
    populateGather sampleQueue 200 raceEnv (BuildConfig.select raceEnv) =
      some [{ config := "C", platform := 1, rev := 101, revTime := 101 }] ∧
    insertConflict raceEnv { config := "C", platform := 1, rev := 101, revTime := 101 } =
      true :=
  ⟨rfl, rfl, rfl⟩

/-- **C7 (amended)** — an insert rejected by the `(config, rev, platform)`
uniqueness constraint makes the insertion phase raise, and `populate()`
forwards the insertion phase's outcome unchanged, so the exception propagates
to the caller. -/
theorem C7_insert_failure_propagates :
    (∀ (env : Env) (nb : NewBuild) (rest : List NewBuild),
      insertConflict env nb = true → insertAll env (nb :: rest) = .error ()) ∧
    (∀ (q : QueueCfg) (now : Int) (env : Env) (nbs : List NewBuild),
      populateGather q now env (BuildConfig.select env) = some nbs →
      populate q now env = insertAll env nbs) :=
  ⟨fun _ _ _ h => by simp [insertAll, h],
   fun _ _ _ _ h => by simp [populate, h]⟩

/-- **C7 witness** — concretely at `raceEnv`: the conflicting insert makes the
insertion phase raise, and `populate()` equals that insertion phase. -/
theorem C7_insert_failure_propagates_witness :
    insertAll raceEnv [{ config := "C", platform := 1, rev := 101, revTime := 101 }] =
      .error () ∧
    populate sampleQueue 200 raceEnv =
      insertAll raceEnv [{ config := "C", platform := 1, rev := 101, revTime := 101 }] :=
  ⟨C7_insert_failure_propagates.1 raceEnv _ [] (by decide),
   C7_insert_failure_propagates.2 sampleQueue 200 raceEnv _ rfl⟩

/-- A pending build of `(C, 10, platform 1)` with `rev_time = 1000`. -/
def tieBuildA : BuildRec :=
  { id := 1, config := "C", rev := 10, revTime := 1000, platform := 1, slave := none,
    slaveInfo := [], status := .pending, started := 0, stopped := 0, lastActivity := 0 }

/-- A second build of the same configuration and platform at a different
revision with the **same** `rev_time`. -/
def tieBuildB : BuildRec := { tieBuildA with id := 2, rev := 11 }

/-- The environment holding the two equal-`rev_time` builds. -/
def tieEnv : Env := { sampleEnv with builds := [tieBuildA, tieBuildB], nextId := 3 }

/-- **C6 counterexample** — `should_delete_build` returns `true` for
`tieBuildA` although its platform row exists, its configuration exists, is
active and has no revision bounds, and **no** build has `rev_time` strictly
greater than `tieBuildA`'s: the code's test counts builds with
`rev_time ≥ this.rev_time`, so a distinct build at the *same* `rev_time`
already triggers deletion. -/
theorem C6_should_delete_build_counterexample :
    should_delete_build tieEnv sampleQueue tieBuildA sampleRepos = some true ∧
    TargetPlatform.fetch tieEnv tieBuildA.platform = some samplePlatform ∧
    BuildConfig.fetch tieEnv tieBuildA.config = some sampleConfig ∧
    sampleConfig.active = true ∧ sampleConfig.minRev = none ∧ sampleConfig.maxRev = none ∧
    sampleQueue.build_all = false ∧
    (∀ b2 ∈ tieEnv.builds, ¬ tieBuildA.revTime < b2.revTime) := by
  refine ⟨by decide, by decide, by decide, by decide, by decide, by decide, by decide, ?_⟩
  decide

/-- `Option.any f o` is true exactly when `o` holds a value satisfying `f`. -/
lemma opt_any_iff (f : Nat → Bool) (o : Option Nat) :
    o.any f = true ↔ ∃ m, o = some m ∧ f m = true := by
  cases o <;> simp

/-- In a duplicate-free list containing `a`, the filter count exceeds one
exactly when some other element also satisfies the predicate. -/
lemma filter_length_gt_one_iff {α : Type} [DecidableEq α] (l : List α) (pred : α → Bool)
    (a : α) (hnd : l.Nodup) (ha : a ∈ l) (hpa : pred a = true) :
    1 < (l.filter pred).length ↔ ∃ x ∈ l, x ≠ a ∧ pred x = true := by
  have hfa : a ∈ l.filter pred := List.mem_filter.mpr ⟨ha, hpa⟩
  have hfnd : (l.filter pred).Nodup := hnd.filter pred
  constructor
  · intro hlen
    have hcard : 1 < (l.filter pred).toFinset.card := by
      rwa [List.toFinset_card_of_nodup hfnd]
    obtain ⟨x, hx, hxa⟩ := Finset.exists_ne_of_one_lt_card hcard a
    rw [List.mem_toFinset, List.mem_filter] at hx
    exact ⟨x, hx.1, hxa, hx.2⟩
  · rintro ⟨x, hx, hxa, hpx⟩
    have hfx : x ∈ l.filter pred := List.mem_filter.mpr ⟨hx, hpx⟩
    have hsub : ({x, a} : Finset α) ⊆ (l.filter pred).toFinset := by
      intro y hy
      rw [List.mem_toFinset]
      rcases Finset.mem_insert.mp hy with h | h
      · rwa [h]
      · rw [Finset.mem_singleton] at h
        rwa [h]
    calc 1 < ({x, a} : Finset α).card := by rw [Finset.card_pair hxa]; norm_num
      _ ≤ (l.filter pred).toFinset.card := Finset.card_le_card hsub
      _ = (l.filter pred).length := List.toFinset_card_of_nodup hfnd

/-- **C6 (amended)** — for a stored build (its row in the table, rows
duplicate-free) whose platform or configuration row still exists,
`should_delete_build` returns `true` exactly when the platform row is missing,
or the configuration is missing or inactive, or the revision falls outside the
configuration's `[min_rev, max_rev]` window, or `build_all` is false and a
**distinct** build of the same `(config, platform)` with `rev_time` **at
least** this build's `rev_time` exists. -/
theorem C6_should_delete_build_conditions (env : Env) (q : QueueCfg) (b : BuildRec)
    (repos : Repos) (hb : b ∈ env.builds) (hnd : env.builds.Nodup)
    (hok : TargetPlatform.fetch env b.platform ≠ none ∨
      BuildConfig.fetch env b.config ≠ none) :
    should_delete_build env q b repos = some true ↔
      TargetPlatform.fetch env b.platform = none ∨
      (∀ c, BuildConfig.fetch env b.config = some c → c.active = false) ∨
      (∃ c, BuildConfig.fetch env b.config = some c ∧
        ((∃ m, c.minRev = some m ∧ repos.revOlderThan b.rev m = true) ∨
         (∃ m, c.maxRev = some m ∧ repos.revOlderThan m b.rev = true))) ∨
      (q.build_all = false ∧ ∃ b2 ∈ env.builds, b2 ≠ b ∧ b2.config = b.config ∧
        b2.platform = b.platform ∧ b.revTime ≤ b2.revTime) := by
  have hcount :
      1 < (Build.selectMinRevTime env b.config b.revTime b.platform).length ↔
        ∃ b2 ∈ env.builds, b2 ≠ b ∧ b2.config = b.config ∧ b2.platform = b.platform ∧
          b.revTime ≤ b2.revTime := by
    rw [Build.selectMinRevTime,
      filter_length_gt_one_iff env.builds _ b hnd hb (by simp)]
    constructor
    · rintro ⟨x, hx, hxb, hpx⟩
      simp only [Bool.and_eq_true, beq_iff_eq, decide_eq_true_eq] at hpx
      exact ⟨x, hx, hxb, hpx.1.1, hpx.1.2, hpx.2⟩
    · rintro ⟨x, hx, hxb, h1, h2, h3⟩
      exact ⟨x, hx, hxb, by simp [h1, h2, h3]⟩
  rcases hp : TargetPlatform.fetch env b.platform with _ | p
  · rcases hc : BuildConfig.fetch env b.config with _ | c
    · exact absurd hok (by simp [hp, hc])
    · apply iff_of_true (by simp [should_delete_build, hp, hc]) (Or.inl rfl)
  · rcases hc : BuildConfig.fetch env b.config with _ | c
    · apply iff_of_true (by simp [should_delete_build, hp, hc])
      exact Or.inr (Or.inl (fun c' h => by cases h))
    · cases hact : c.active
      · apply iff_of_true (by simp [should_delete_build, hp, hc, hact])
        refine Or.inr (Or.inl (fun c' h => ?_))
        injection h with h'
        rw [← h']
        exact hact
      · by_cases hrange : ((c.minRev.any fun m => repos.revOlderThan b.rev m) ||
            (c.maxRev.any fun m => repos.revOlderThan m b.rev)) = true
        · apply iff_of_true (by simp [should_delete_build, hp, hc, hact, hrange])
          refine Or.inr (Or.inr (Or.inl ⟨c, rfl, ?_⟩))
          have hrange2 : (c.minRev.any fun m => repos.revOlderThan b.rev m) = true ∨
              (c.maxRev.any fun m => repos.revOlderThan m b.rev) = true := by
            simpa using hrange
          rcases hrange2 with h | h
          · exact Or.inl ((opt_any_iff _ _).mp h)
          · exact Or.inr ((opt_any_iff _ _).mp h)
        · by_cases hcnt : (!q.build_all &&
              decide (1 < (Build.selectMinRevTime env b.config b.revTime b.platform).length))
              = true
          · apply iff_of_true
              (by simp [should_delete_build, hp, hc, hact, hrange, hcnt])
            rw [Bool.and_eq_true, Bool.not_eq_true', decide_eq_true_eq] at hcnt
            exact Or.inr (Or.inr (Or.inr ⟨hcnt.1, hcount.mp hcnt.2⟩))
          · apply iff_of_false
              (by simp [should_delete_build, hp, hc, hact, hrange, hcnt])
            rintro (h | h | h | h)
            · cases h
            · have := h c rfl
              rw [hact] at this
              cases this
            · obtain ⟨c', hc', hm⟩ := h
              injection hc' with hcc
              subst hcc
              apply hrange
              rcases hm with ⟨m, hm1, hm2⟩ | ⟨m, hm1, hm2⟩
              · have := (opt_any_iff (fun m => repos.revOlderThan b.rev m) _).mpr
                  ⟨m, hm1, hm2⟩
                rw [this]
                rfl
              · have := (opt_any_iff (fun m => repos.revOlderThan m b.rev) _).mpr
                  ⟨m, hm1, hm2⟩
                rw [this, Bool.or_true]
            · apply hcnt
              rw [Bool.and_eq_true, Bool.not_eq_true', decide_eq_true_eq]
              exact ⟨h.1, hcount.mpr h.2⟩

/-- **C6 witness** — the amended equivalence evaluated at the tie scenario:
`tieBuildA` is stored, the rows are duplicate-free, its platform exists, and
the equivalence holds there. -/
theorem C6_should_delete_build_conditions_witness :
    should_delete_build tieEnv sampleQueue tieBuildA sampleRepos = some true ↔
      TargetPlatform.fetch tieEnv tieBuildA.platform = none ∨
      (∀ c, BuildConfig.fetch tieEnv tieBuildA.config = some c → c.active = false) ∨
      (∃ c, BuildConfig.fetch tieEnv tieBuildA.config = some c ∧
        ((∃ m, c.minRev = some m ∧ sampleRepos.revOlderThan tieBuildA.rev m = true) ∨
         (∃ m, c.maxRev = some m ∧ sampleRepos.revOlderThan m tieBuildA.rev = true))) ∨
      (sampleQueue.build_all = false ∧ ∃ b2 ∈ tieEnv.builds, b2 ≠ tieBuildA ∧
        b2.config = tieBuildA.config ∧ b2.platform = tieBuildA.platform ∧
        tieBuildA.revTime ≤ b2.revTime) :=
  C6_should_delete_build_conditions tieEnv sampleQueue tieBuildA sampleRepos
    (by decide) (by decide) (Or.inl (by decide))

/-! ### Unfolding equations for `seqMatch` -/

lemma seqMatch_nil (anc : Bool) (s : List Char) :
    seqMatch [] anc s = (!anc || s.isEmpty) := by
  rw [seqMatch]

lemma seqMatch_once_nil (a : ReAtom) (items : List ReItem) (anc : Bool) :
    seqMatch (.once a :: items) anc [] = false := by
  rw [seqMatch]

lemma seqMatch_once_cons (a : ReAtom) (items : List ReItem) (anc : Bool) (c : Char)
    (s : List Char) :
    seqMatch (.once a :: items) anc (c :: s) = (atomMatch a c && seqMatch items anc s) := by
  rw [seqMatch]

lemma seqMatch_star_nil (a : ReAtom) (items : List ReItem) (anc : Bool) :
    seqMatch (.star a :: items) anc [] = seqMatch items anc [] := by
  rw [seqMatch]

lemma seqMatch_star_cons (a : ReAtom) (items : List ReItem) (anc : Bool) (c : Char)
    (s : List Char) :
    seqMatch (.star a :: items) anc (c :: s) =
      (seqMatch items anc (c :: s) || (atomMatch a c && seqMatch (.star a :: items) anc s)) := by
  rw [seqMatch]

lemma seqMatch_opt_nil (a : ReAtom) (items : List ReItem) (anc : Bool) :
    seqMatch (.opt a :: items) anc [] = seqMatch items anc [] := by
  rw [seqMatch]

lemma seqMatch_opt_cons (a : ReAtom) (items : List ReItem) (anc : Bool) (c : Char)
    (s : List Char) :
    seqMatch (.opt a :: items) anc (c :: s) =
      (seqMatch items anc (c :: s) || (atomMatch a c && seqMatch items anc s)) := by
  rw [seqMatch]

/-- A star item can be skipped: a match without it is a match with it. -/
lemma seqMatch_star_intro (a : ReAtom) (items : List ReItem) (anc : Bool) (s : List Char)
    (h : seqMatch items anc s = true) : seqMatch (.star a :: items) anc s = true := by
  cases s with
  | nil => rwa [seqMatch_star_nil]
  | cons c cs => rw [seqMatch_star_cons, h, Bool.true_or]

/-- An optional item can be skipped. -/
lemma seqMatch_opt_intro (a : ReAtom) (items : List ReItem) (anc : Bool) (s : List Char)
    (h : seqMatch items anc s = true) : seqMatch (.opt a :: items) anc s = true := by
  cases s with
  | nil => rwa [seqMatch_opt_nil]
  | cons c cs => rw [seqMatch_opt_cons, h, Bool.true_or]

/-- An anchored match is in particular an unanchored match. -/
lemma seqMatch_anchored_mono :
    ∀ (n : Nat) (items : List ReItem) (s : List Char), items.length + s.length ≤ n →
      seqMatch items true s = true → seqMatch items false s = true := by
  intro n
  induction n with
  | zero =>
    intro items s hle h
    have h1 : items = [] := List.length_eq_zero.mp (by omega)
    have h2 : s = [] := List.length_eq_zero.mp (by omega)
    subst h1; subst h2
    rw [seqMatch_nil]
    rfl
  | succ n ih =>
    intro items s hle h
    cases items with
    | nil => rw [seqMatch_nil]; rfl
    | cons it rest =>
      cases it with
      | once a =>
        cases s with
        | nil => rw [seqMatch_once_nil] at h; cases h
        | cons c cs =>
          rw [seqMatch_once_cons] at h ⊢
          rw [Bool.and_eq_true] at h ⊢
          refine ⟨h.1, ih rest cs ?_ h.2⟩
          simp only [List.length_cons] at hle
          omega
      | star a =>
        cases s with
        | nil =>
          rw [seqMatch_star_nil] at h ⊢
          refine ih rest [] ?_ h
          simp only [List.length_cons] at hle
          omega
        | cons c cs =>
          rw [seqMatch_star_cons] at h ⊢
          have h2 : seqMatch rest true (c :: cs) = true ∨
              (atomMatch a c && seqMatch (.star a :: rest) true cs) = true := by
            simpa using h
          rcases h2 with h2 | h2
          · have := ih rest (c :: cs) (by simp only [List.length_cons] at hle ⊢; omega) h2
            rw [this, Bool.true_or]
          · rw [Bool.and_eq_true] at h2
            have := ih (.star a :: rest) cs
              (by simp only [List.length_cons] at hle ⊢; omega) h2.2
            rw [h2.1, this]
            simp
      | opt a =>
        cases s with
        | nil =>
          rw [seqMatch_opt_nil] at h ⊢
          refine ih rest [] ?_ h
          simp only [List.length_cons] at hle
          omega
        | cons c cs =>
          rw [seqMatch_opt_cons] at h ⊢
          have h2 : seqMatch rest true (c :: cs) = true ∨
              (atomMatch a c && seqMatch rest true cs) = true := by
            simpa using h
          rcases h2 with h2 | h2
          · have := ih rest (c :: cs) (by simp only [List.length_cons] at hle ⊢; omega) h2
            rw [this, Bool.true_or]
          · rw [Bool.and_eq_true] at h2
            have := ih rest cs (by simp only [List.length_cons] at hle ⊢; omega) h2.2
            rw [h2.1, this]
            simp

/-- An anchored match of `pre` gives an unanchored match of `pre ++ post`:
the matcher never constrains what follows the matched prefix. -/
lemma seqMatch_append_of_anchored :
    ∀ (n : Nat) (items : List ReItem) (pre post : List Char), items.length + pre.length ≤ n →
      seqMatch items true pre = true → seqMatch items false (pre ++ post) = true := by
  intro n
  induction n with
  | zero =>
    intro items pre post hle h
    have h1 : items = [] := List.length_eq_zero.mp (by omega)
    have h2 : pre = [] := List.length_eq_zero.mp (by omega)
    subst h1; subst h2
    rw [List.nil_append, seqMatch_nil]
    rfl
  | succ n ih =>
    intro items pre post hle h
    cases items with
    | nil =>
      rw [seqMatch_nil] at h
      have hpre : pre = [] := by simpa using h
      subst hpre
      rw [List.nil_append, seqMatch_nil]
      rfl
    | cons it rest =>
      cases it with
      | once a =>
        cases pre with
        | nil => rw [seqMatch_once_nil] at h; cases h
        | cons c pcs =>
          rw [seqMatch_once_cons, Bool.and_eq_true] at h
          rw [List.cons_append, seqMatch_once_cons, Bool.and_eq_true]
          refine ⟨h.1, ih rest pcs post ?_ h.2⟩
          simp only [List.length_cons] at hle
          omega
      | star a =>
        cases pre with
        | nil =>
          rw [seqMatch_star_nil] at h
          cases post with
          | nil =>
            rw [List.nil_append, seqMatch_star_nil]
            exact seqMatch_anchored_mono (rest.length) rest [] (by simp) h
          | cons d ds =>
            rw [List.nil_append, seqMatch_star_cons]
            have := ih rest [] (d :: ds)
              (by simp only [List.length_cons, List.length_nil] at hle ⊢; omega) h
            rw [List.nil_append] at this
            rw [this, Bool.true_or]
        | cons c pcs =>
          rw [seqMatch_star_cons] at h
          have h2 : seqMatch rest true (c :: pcs) = true ∨
              (atomMatch a c && seqMatch (.star a :: rest) true pcs) = true := by
            simpa using h
          rw [List.cons_append, seqMatch_star_cons]
          rcases h2 with h2 | h2
          · have := ih rest (c :: pcs) post
              (by simp only [List.length_cons] at hle ⊢; omega) h2
            rw [List.cons_append] at this
            rw [this, Bool.true_or]
          · rw [Bool.and_eq_true] at h2
            have := ih (.star a :: rest) pcs post
              (by simp only [List.length_cons] at hle ⊢; omega) h2.2
            rw [h2.1, this]
            simp
      | opt a =>
        cases pre with
        | nil =>
          rw [seqMatch_opt_nil] at h
          cases post with
          | nil =>
            rw [List.nil_append, seqMatch_opt_nil]
            exact seqMatch_anchored_mono (rest.length) rest [] (by simp) h
          | cons d ds =>
            rw [List.nil_append, seqMatch_opt_cons]
            have := ih rest [] (d :: ds)
              (by simp only [List.length_cons, List.length_nil] at hle ⊢; omega) h
            rw [List.nil_append] at this
            rw [this, Bool.true_or]
        | cons c pcs =>
          rw [seqMatch_opt_cons] at h
          have h2 : seqMatch rest true (c :: pcs) = true ∨
              (atomMatch a c && seqMatch rest true pcs) = true := by
            simpa using h
          rw [List.cons_append, seqMatch_opt_cons]
          rcases h2 with h2 | h2
          · have := ih rest (c :: pcs) post
              (by simp only [List.length_cons] at hle ⊢; omega) h2
            rw [List.cons_append] at this
            rw [this, Bool.true_or]
          · rw [Bool.and_eq_true] at h2
            have := ih rest pcs post
              (by simp only [List.length_cons] at hle ⊢; omega) h2.2
            rw [h2.1, this]
            simp

/-- An unanchored match decomposes the value into a matched prefix and an
arbitrary remainder. -/
lemma seqMatch_false_exists :
    ∀ (n : Nat) (items : List ReItem) (s : List Char), items.length + s.length ≤ n →
      seqMatch items false s = true →
      ∃ pre post, s = pre ++ post ∧ seqMatch items true pre = true := by
  intro n
  induction n with
  | zero =>
    intro items s hle _
    have h1 : items = [] := List.length_eq_zero.mp (by omega)
    have h2 : s = [] := List.length_eq_zero.mp (by omega)
    subst h1; subst h2
    exact ⟨[], [], rfl, by rw [seqMatch_nil]; rfl⟩
  | succ n ih =>
    intro items s hle h
    cases items with
    | nil => exact ⟨[], s, rfl, by rw [seqMatch_nil]; rfl⟩
    | cons it rest =>
      cases it with
      | once a =>
        cases s with
        | nil => rw [seqMatch_once_nil] at h; cases h
        | cons c cs =>
          rw [seqMatch_once_cons, Bool.and_eq_true] at h
          obtain ⟨pre, post, heq, hanch⟩ := ih rest cs
            (by simp only [List.length_cons] at hle ⊢; omega) h.2
          refine ⟨c :: pre, post, by rw [List.cons_append, heq], ?_⟩
          rw [seqMatch_once_cons, Bool.and_eq_true]
          exact ⟨h.1, hanch⟩
      | star a =>
        cases s with
        | nil =>
          rw [seqMatch_star_nil] at h
          obtain ⟨pre, post, heq, hanch⟩ := ih rest []
            (by simp only [List.length_cons] at hle ⊢; omega) h
          obtain ⟨hpre, -⟩ := List.append_eq_nil.mp heq.symm
          subst hpre
          exact ⟨[], [], rfl, by rw [seqMatch_star_nil]; exact hanch⟩
        | cons c cs =>
          rw [seqMatch_star_cons] at h
          have h2 : seqMatch rest false (c :: cs) = true ∨
              (atomMatch a c && seqMatch (.star a :: rest) false cs) = true := by
            simpa using h
          rcases h2 with h2 | h2
          · obtain ⟨pre, post, heq, hanch⟩ := ih rest (c :: cs)
              (by simp only [List.length_cons] at hle ⊢; omega) h2
            exact ⟨pre, post, heq, seqMatch_star_intro a rest true pre hanch⟩
          · rw [Bool.and_eq_true] at h2
            obtain ⟨pre, post, heq, hanch⟩ := ih (.star a :: rest) cs
              (by simp only [List.length_cons] at hle ⊢; omega) h2.2
            refine ⟨c :: pre, post, by rw [List.cons_append, heq], ?_⟩
            rw [seqMatch_star_cons, h2.1, hanch]
            simp
      | opt a =>
        cases s with
        | nil =>
          rw [seqMatch_opt_nil] at h
          obtain ⟨pre, post, heq, hanch⟩ := ih rest []
            (by simp only [List.length_cons] at hle ⊢; omega) h
          obtain ⟨hpre, -⟩ := List.append_eq_nil.mp heq.symm
          subst hpre
          exact ⟨[], [], rfl, by rw [seqMatch_opt_nil]; exact hanch⟩
        | cons c cs =>
          rw [seqMatch_opt_cons] at h
          have h2 : seqMatch rest false (c :: cs) = true ∨
              (atomMatch a c && seqMatch rest false cs) = true := by
            simpa using h
          rcases h2 with h2 | h2
          · obtain ⟨pre, post, heq, hanch⟩ := ih rest (c :: cs)
              (by simp only [List.length_cons] at hle ⊢; omega) h2
            exact ⟨pre, post, heq, seqMatch_opt_intro a rest true pre hanch⟩
          · rw [Bool.and_eq_true] at h2
            obtain ⟨pre, post, heq, hanch⟩ := ih rest cs
              (by simp only [List.length_cons] at hle ⊢; omega) h2.2
            refine ⟨c :: pre, post, by rw [List.cons_append, heq], ?_⟩
            rw [seqMatch_opt_cons, h2.1, hanch]
            simp

/-- The unanchored matcher accepts exactly the values some prefix of which the
anchored matcher accepts. -/
lemma seqMatch_false_iff (items : List ReItem) (s : List Char) :
    seqMatch items false s = true ↔
      ∃ pre post, s = pre ++ post ∧ seqMatch items true pre = true := by
  constructor
  · exact seqMatch_false_exists (items.length + s.length) items s le_rfl
  · rintro ⟨pre, post, heq, hanch⟩
    rw [heq]
    exact seqMatch_append_of_anchored (items.length + pre.length) items pre post le_rfl hanch

/-- **C10** — rule patterns are applied start-anchored only: for a pattern
without the `$` anchor, `re.match` succeeds on a value exactly when the
pattern matches some **prefix** of the (lowercased) value, with no implicit
anchoring at the end; in particular the rule pattern `posix` matches the
property value `posix-extended`. -/
theorem C10_match_prefix_semantics :
    (∀ (pattern value : String) (items : List ReItem),
      reParse pattern.data = some (items, false) →
      (reMatchI pattern value = some true ↔
        ∃ pre post, value.data = pre ++ post ∧ seqMatch items true pre = true)) ∧
    ruleMatches [("family", "posix-extended")] ("family", "posix") = true := by
  constructor
  · intro pattern value items h
    rw [reMatchI, h]
    simp only [Option.map_some', Option.some.injEq]
    exact seqMatch_false_iff items value.data
  · have h0 : ruleMatches [("family", "posix-extended")] ("family", "posix") =
        seqMatch [.once (.lit 'p'), .once (.lit 'o'), .once (.lit 's'),
          .once (.lit 'i'), .once (.lit 'x')] false "posix-extended".data := rfl
    have hdata : "posix-extended".data =
        ['p', 'o', 's', 'i', 'x', '-', 'e', 'x', 't', 'e', 'n', 'd', 'e', 'd'] := by
      decide
    rw [h0, hdata]
    simp only [seqMatch_once_cons, seqMatch_nil]
    decide

/-- **C10 witness** — the prefix characterization at the pattern `posix` and
the value `posix-extended`. -/
theorem C10_match_prefix_semantics_witness :
    reMatchI "posix" "posix-extended" = some true ↔
      ∃ pre post, "posix-extended".data = pre ++ post ∧
        seqMatch [.once (.lit 'p'), .once (.lit 'o'), .once (.lit 's'),
          .once (.lit 'i'), .once (.lit 'x')] true pre = true :=
  C10_match_prefix_semantics.1 "posix" "posix-extended"
    [.once (.lit 'p'), .once (.lit 'o'), .once (.lit 's'),
      .once (.lit 'i'), .once (.lit 'x')] rfl

/-! ### Supporting lemmas for the allocation theorem -/

/-- What the scanning loop guarantees when it selects a build: the selected
build is one of the scanned pending builds, its platform is among the matched
ids, and every build marked for deletion is a scanned build distinct from the
selected one. -/
lemma scanPending_spec (env : Env) (q : QueueCfg) (pids : List Nat) :
    ∀ (l : List BuildRec), l.Nodup → ∀ (del : List BuildRec) (b0 : BuildRec),
      scanPending env q pids l = some (del, some b0) →
      b0 ∈ l ∧ pids.contains b0.platform = true ∧ ∀ d ∈ del, d ∈ l ∧ d ≠ b0 := by
  intro l
  induction l with
  | nil =>
    intro _ del b0 h
    simp [scanPending] at h
  | cons b rest ih =>
    intro hnd del b0 h
    rw [List.nodup_cons] at hnd
    rw [scanPending] at h
    rcases hf : BuildConfig.fetch env b.config with _ | cfg
    · simp [hf] at h
    · simp only [hf] at h
      rcases hsd : should_delete_build env q b (env.reposOf cfg.path) with _ | tf
      · simp [hsd] at h
      · cases tf with
        | true =>
          simp only [hsd] at h
          rcases hrec : scanPending env q pids rest with _ | pr
          · rw [hrec] at h
            simp at h
          · obtain ⟨del2, found2⟩ := pr
            rw [hrec] at h
            simp only [Option.map_some', Option.some.injEq, Prod.mk.injEq] at h
            obtain ⟨hdel, hfound⟩ := h
            obtain ⟨hmem, hcont, hdel2⟩ := ih hnd.2 del2 b0 (by rw [hrec, hfound])
            refine ⟨List.mem_cons_of_mem b hmem, hcont, ?_⟩
            intro d hd
            rw [← hdel] at hd
            rcases List.mem_cons.mp hd with hdb | hdd
            · subst hdb
              exact ⟨List.mem_cons_self d rest, fun hdb0 => hnd.1 (hdb0 ▸ hmem)⟩
            · obtain ⟨hd1, hd2⟩ := hdel2 d hdd
              exact ⟨List.mem_cons_of_mem b hd1, hd2⟩
        | false =>
          simp only [hsd] at h
          by_cases hcont : pids.contains b.platform = true
          · rw [if_pos hcont] at h
            simp only [Option.some.injEq, Prod.mk.injEq] at h
            obtain ⟨hdel, hfound⟩ := h
            subst hfound
            refine ⟨List.mem_cons_self b rest, hcont, ?_⟩
            intro d hd
            rw [← hdel] at hd
            cases hd
          · rw [if_neg hcont] at h
            obtain ⟨hmem, hcont2, hdel2⟩ := ih hnd.2 del b0 h
            refine ⟨List.mem_cons_of_mem b hmem, hcont2, ?_⟩
            intro d hd
            obtain ⟨hd1, hd2⟩ := hdel2 d hd
            exact ⟨List.mem_cons_of_mem b hd1, hd2⟩

/-- Orphan reset does not change build ids. -/
lemma reset_orphaned_builds_ids (q : QueueCfg) (now : Int) (env : Env) :
    (reset_orphaned_builds q now env).builds.map (fun x => x.id) =
      env.builds.map (fun x => x.id) := by
  rw [reset_orphaned_builds]
  split
  · rfl
  · show (env.builds.map _).map _ = _
    rw [List.map_map]
    apply List.map_congr_left
    intro x _
    by_cases h : isOrphaned q now x = true <;> simp [h, resetBuild]

/-- Orphan reset does not touch the configuration table. -/
lemma reset_orphaned_builds_configs (q : QueueCfg) (now : Int) (env : Env) :
    (reset_orphaned_builds q now env).configs = env.configs := by
  rw [reset_orphaned_builds]
  split <;> rfl

/-- Orphan reset does not touch the platform table. -/
lemma reset_orphaned_builds_platforms (q : QueueCfg) (now : Int) (env : Env) :
    (reset_orphaned_builds q now env).platforms = env.platforms := by
  rw [reset_orphaned_builds]
  split <;> rfl

/-- `match_slave` reads only the configuration and platform tables. -/
lemma match_slave_congr (env env2 : Env) (hc : env2.configs = env.configs)
    (hp : env2.platforms = env.platforms) (name : String)
    (properties : List (String × String)) :
    match_slave env2 name properties = match_slave env name properties := by
  rw [match_slave, match_slave, BuildConfig.select, BuildConfig.select, hc]
  simp [TargetPlatform.select, hp]

/-- **C1** — whenever `get_build_for_slave(name, properties)` returns a build,
that build's platform is among the ids of `match_slave(name, properties)`, the
build is a pending build of the post-reset state allocated with `slave =
name`, its previous `slave_info` updated with `properties` and
`status = IN_PROGRESS`, and the allocated row is persisted in the returned
state.  (The build ids are assumed duplicate-free, the table's primary-key
invariant.) -/
theorem C1_get_build_for_slave_allocation (q : QueueCfg) (now : Int) (name : String)
    (properties : List (String × String)) (env : Env) (b : BuildRec) (env2 : Env)
    (hnd : (env.builds.map (fun x => x.id)).Nodup)
    (h : get_build_for_slave q now name properties env = some (some b, env2)) :
    b.platform ∈ (match_slave env name properties).map (fun p => p.id) ∧
    b.slave = some name ∧
    b.status = .inProgress ∧
    (∃ b0 ∈ (reset_orphaned_builds q now env).builds,
      b = allocate name properties b0 ∧
      b.slaveInfo = dictUpdate b0.slaveInfo properties) ∧
    b ∈ env2.builds := by
  simp only [get_build_for_slave] at h
  rcases hscan : scanPending (reset_orphaned_builds q now env) q
      ((match_slave (reset_orphaned_builds q now env) name properties).map (fun p => p.id))
      (Build.selectStatus (reset_orphaned_builds q now env) .pending) with _ | ⟨del, found⟩ <;>
    rw [hscan] at h
  · cases h
  · cases found with
    | none => simp at h
    | some b0 =>
      simp only [Option.some.injEq, Prod.mk.injEq] at h
      obtain ⟨hb, henv2⟩ := h
      have hids1 := reset_orphaned_builds_ids q now env
      have hnd1 : ((reset_orphaned_builds q now env).builds.map (fun x => x.id)).Nodup := by
        rw [hids1]; exact hnd
      have hndb : (reset_orphaned_builds q now env).builds.Nodup :=
        List.Nodup.of_map _ hnd1
      have hndp : (Build.selectStatus (reset_orphaned_builds q now env) .pending).Nodup := by
        rw [Build.selectStatus]
        exact hndb.filter _
      obtain ⟨hb0mem, hb0cont, hdel⟩ :=
        scanPending_spec (reset_orphaned_builds q now env) q _ _ hndp del b0 hscan
      have hb0env1 : b0 ∈ (reset_orphaned_builds q now env).builds := by
        rw [Build.selectStatus] at hb0mem
        exact (List.mem_filter.mp hb0mem).1
      have hms : match_slave (reset_orphaned_builds q now env) name properties =
          match_slave env name properties :=
        match_slave_congr env _ (reset_orphaned_builds_configs q now env)
          (reset_orphaned_builds_platforms q now env) name properties
      have hplat : b.platform = b0.platform := by rw [← hb]; rfl
      refine ⟨?_, ?_, ?_, ⟨b0, hb0env1, hb.symm, by rw [← hb]; rfl⟩, ?_⟩
      · rw [hms] at hb0cont
        rw [hplat]
        simpa using hb0cont
      · rw [← hb]; rfl
      · rw [← hb]; rfl
      · rw [← henv2]
        apply List.mem_map.mpr
        refine ⟨b0, ?_, by rw [← hb]; simp⟩
        apply List.mem_filter.mpr
        refine ⟨hb0env1, ?_⟩
        rw [Bool.not_eq_true', List.any_eq_false]
        intro d hd hid
        obtain ⟨hd1, hd2⟩ := hdel d hd
        have hdenv1 : d ∈ (reset_orphaned_builds q now env).builds := by
          rw [Build.selectStatus] at hd1
          exact (List.mem_filter.mp hd1).1
        have hid2 : d.id = b0.id := by simpa using hid
        exact hd2 (List.inj_on_of_nodup_map hnd1 hdenv1 hb0env1 hid2)

/-- The build as allocated to slave `slim` with its property map. -/
def sampleAllocated : BuildRec := allocate "slim" [("os", "linux")] samplePending

/-- **C1 witness** — the allocation facts at a concrete call: the sample
pending build of `(C, 103, platform 1)` is handed to slave `slim`. -/
theorem C1_get_build_for_slave_allocation_witness :
    sampleAllocated.platform ∈
      (match_slave sampleEnvPending "slim" [("os", "linux")]).map (fun p => p.id) ∧
    sampleAllocated.slave = some "slim" ∧
    sampleAllocated.status = .inProgress ∧
    (∃ b0 ∈ (reset_orphaned_builds sampleQueue 200 sampleEnvPending).builds,
      sampleAllocated = allocate "slim" [("os", "linux")] b0 ∧
      sampleAllocated.slaveInfo = dictUpdate b0.slaveInfo [("os", "linux")]) ∧
    sampleAllocated ∈ ({ sampleEnvPending with builds := [sampleAllocated] } : Env).builds :=
  C1_get_build_for_slave_allocation sampleQueue 200 "slim" [("os", "linux")]
    sampleEnvPending sampleAllocated { sampleEnvPending with builds := [sampleAllocated] }
    (by decide) rfl

end Bitten
